import Mathlib

/-!
Verification development for the MGDEIS knowledge-graph ingestion and query
layer.

The repository ingests tabular batches of government entities, people and
private-sector partners into a labeled-property graph (Neo4j, via
GovernmentKnowledgeGraph in neo4j_knowledge_graph.py), validates and cleans
the batches (DataPipeline in data_pipeline.py), exposes analytical queries
(neo4j_connector.py), and maintains a parallel semantic index
(vector_search_system.py, backed by ChromaDB).

This file gives a shallow embedding of those operations:

* A graph node collection with a uniqueness constraint on its identity key
  (declared by GovernmentKnowledgeGraph.create_constraints) is embedded as a
  function from keys to optional node records; Cypher MERGE followed by SET
  of every attribute is embedded as a keyed upsert (mapUpsert / mergeNodes).
* An edge collection is embedded as a list of endpoint pairs; Cypher
  MERGE on a relationship pattern is embedded as append-if-absent
  (mergeInto / addEdges).  Timestamps (created_at) are not modelled.
* Cypher MATCH clauses guarding a MERGE are embedded as a boolean guard on
  the fold (the cond parameter of mergeNodes / addEdges).
* Python logging of warnings and counts is embedded as explicitly computed
  counts (for example invalidParentCount mirrors the count logged by
  DataPipeline._validate_relationships).
* Pandas numeric columns are embedded as rationals (confidence scores) and
  integers (contract values); floating point rounding is not modelled.
-/

namespace MGDEIS

/-! ## Generic list lemmas -/

/-- Find the first element of a list whose key equals a given key. -/
def findByKey {α : Type} {κ : Type} [DecidableEq κ] (key : α → κ) (k : κ)
    (l : List α) : Option α :=
  l.find? (fun x => decide (key x = k))

theorem find?_filter_of_imp {α : Type} (p q : α → Bool) (l : List α)
    (h : ∀ a, p a = true → q a = true) :
    (l.filter q).find? p = l.find? p := by
  induction l with
  | nil => rfl
  | cons x xs ih =>
      cases hq : q x with
      | true =>
          rw [List.filter_cons_of_pos hq]
          cases hpx : p x with
          | true =>
              rw [List.find?_cons_of_pos _ hpx, List.find?_cons_of_pos _ hpx]
          | false =>
              have hneg : ¬ p x = true := by simp [hpx]
              rw [List.find?_cons_of_neg _ hneg, List.find?_cons_of_neg _ hneg]
              exact ih
      | false =>
          have hpx : p x = false := by
            cases hp2 : p x with
            | true => rw [h x hp2] at hq; cases hq
            | false => rfl
          have hqneg : ¬ q x = true := by simp [hq]
          have hneg : ¬ p x = true := by simp [hpx]
          rw [List.filter_cons_of_neg hqneg, ih, List.find?_cons_of_neg _ hneg]

theorem reverse_find?_eq_of_unique {α : Type} {κ : Type} [DecidableEq κ]
    (key : α → κ) (l : List α) (x : α) (hx : x ∈ l)
    (hu : ∀ y ∈ l, key y = key x → y = x) :
    l.reverse.find? (fun y => decide (key y = key x)) = some x := by
  have hsome : (l.reverse.find? (fun y => decide (key y = key x))).isSome := by
    rw [List.find?_isSome]
    exact ⟨x, List.mem_reverse.mpr hx, by simp⟩
  obtain ⟨y, hy⟩ := Option.isSome_iff_exists.mp hsome
  have hmem : y ∈ l := List.mem_reverse.mp (List.mem_of_find?_eq_some hy)
  have hp := List.find?_some hy
  have hkey : key y = key x := by simpa using hp
  rw [hy, hu y hmem hkey]

/-! ## Keyed node collections (Cypher MERGE-by-key with SET of all attributes)

The graph schema declares a uniqueness constraint on each node kind's
identity key, so a node collection is a partial map from keys to attribute
records.  MERGE followed by SET of every attribute replaces the stored
record wholesale, which mapUpsert captures. -/

/-- Update a keyed map at one key (MERGE creating or overwriting a node). -/
def mapUpsert {κ ν : Type} [DecidableEq κ] (m : κ → Option ν) (k : κ) (v : ν) :
    κ → Option ν :=
  fun k' => if k' = k then some v else m k'

/-- Fold a batch of rows into a keyed map: each row whose guard (the MATCH
clauses of the Cypher statement) holds upserts the node built from it. -/
def mergeNodes {α κ ν : Type} [DecidableEq κ] (key : α → κ) (mk : α → ν)
    (cond : α → Bool) (m : κ → Option ν) (l : List α) : κ → Option ν :=
  l.foldl (fun m r => if cond r then mapUpsert m (key r) (mk r) else m) m

theorem mergeNodes_cons {α κ ν : Type} [DecidableEq κ] (key : α → κ)
    (mk : α → ν) (cond : α → Bool) (m : κ → Option ν) (x : α) (xs : List α) :
    mergeNodes key mk cond m (x :: xs) =
      mergeNodes key mk cond
        (if cond x then mapUpsert m (key x) (mk x) else m) xs := rfl

theorem mergeNodes_apply {α κ ν : Type} [DecidableEq κ] (key : α → κ)
    (mk : α → ν) (cond : α → Bool) (m : κ → Option ν) (l : List α) (k : κ) :
    mergeNodes key mk cond m l k =
      match (l.filter cond).reverse.find? (fun r => decide (key r = k)) with
      | some r => some (mk r)
      | none => m k := by
  induction l generalizing m with
  | nil => rfl
  | cons x xs ih =>
      rw [mergeNodes_cons]
      by_cases hc : cond x = true
      · rw [if_pos hc, ih, List.filter_cons_of_pos hc, List.reverse_cons,
          List.find?_append]
        cases hfind : (xs.filter cond).reverse.find? (fun r => decide (key r = k)) with
        | some r => simp [hfind]
        | none =>
            simp only [hfind, Option.none_or, List.find?_singleton]
            by_cases hk : key x = k
            · rw [if_pos (show decide (key x = k) = true from by simpa using hk)]
              simp [mapUpsert, hk]
            · rw [if_neg (show ¬ decide (key x = k) = true from by simpa using hk)]
              simp only [mapUpsert]
              rw [if_neg (show ¬ k = key x from fun h => hk h.symm)]
      · rw [if_neg hc, ih, List.filter_cons_of_neg hc]

theorem mergeNodes_idem {α κ ν : Type} [DecidableEq κ] (key : α → κ)
    (mk : α → ν) (cond : α → Bool) (m : κ → Option ν) (l : List α) :
    mergeNodes key mk cond (mergeNodes key mk cond m l) l =
      mergeNodes key mk cond m l := by
  funext k
  rw [mergeNodes_apply key mk cond (mergeNodes key mk cond m l) l k]
  cases hfind : (l.filter cond).reverse.find? (fun r => decide (key r = k)) with
  | some r =>
      rw [mergeNodes_apply key mk cond m l k, hfind]
  | none => rfl

/-- Every row of the batch that passes the guard ends up present in the map
under its key. -/
theorem mergeNodes_isSome_of_mem {α κ ν : Type} [DecidableEq κ] (key : α → κ)
    (mk : α → ν) (cond : α → Bool) (m : κ → Option ν) (l : List α) (r : α)
    (hr : r ∈ l) (hc : cond r = true) :
    (mergeNodes key mk cond m l (key r)).isSome = true := by
  have hmem : r ∈ (l.filter cond).reverse :=
    List.mem_reverse.mpr (List.mem_filter.mpr ⟨hr, hc⟩)
  have hsome : ((l.filter cond).reverse.find? (fun x => decide (key x = key r))).isSome := by
    rw [List.find?_isSome]
    exact ⟨r, hmem, by simp⟩
  obtain ⟨y, hy⟩ := Option.isSome_iff_exists.mp hsome
  rw [mergeNodes_apply key mk cond m l (key r), hy]
  rfl

/-! ## Edge collections (Cypher MERGE on a relationship pattern) -/

/-- Append an element to a list unless it is already present; the embedding
of MERGE on an attribute-free relationship (and of inserting into a set of
policy names). -/
def mergeInto {ε : Type} [DecidableEq ε] (es : List ε) (e : ε) : List ε :=
  if e ∈ es then es else es ++ [e]

theorem mem_mergeInto {ε : Type} [DecidableEq ε] (es : List ε) (e e' : ε) :
    e' ∈ mergeInto es e ↔ e' ∈ es ∨ e' = e := by
  unfold mergeInto
  by_cases h : e ∈ es
  · simp only [h, if_true]
    constructor
    · exact Or.inl
    · rintro (hm | rfl)
      · exact hm
      · exact h
  · simp [h]

theorem mergeInto_of_mem {ε : Type} [DecidableEq ε] (es : List ε) (e : ε)
    (h : e ∈ es) : mergeInto es e = es := by
  simp [mergeInto, h]

/-- Fold a list of candidate edges into an edge list, keeping those whose
guard (the MATCH clauses resolving both endpoints) holds. -/
def addEdges {α ε : Type} [DecidableEq ε] (cond : α → Bool) (edge : α → ε)
    (es : List ε) (l : List α) : List ε :=
  l.foldl (fun es r => if cond r then mergeInto es (edge r) else es) es

theorem mem_addEdges {α ε : Type} [DecidableEq ε] (cond : α → Bool)
    (edge : α → ε) (es : List ε) (l : List α) (e : ε) :
    e ∈ addEdges cond edge es l ↔
      e ∈ es ∨ ∃ r ∈ l, cond r = true ∧ edge r = e := by
  induction l generalizing es with
  | nil => simp [addEdges]
  | cons x xs ih =>
      by_cases hc : cond x = true
      · rw [show addEdges cond edge es (x :: xs) =
            addEdges cond edge (mergeInto es (edge x)) xs by simp [addEdges, hc]]
        rw [ih, mem_mergeInto]
        constructor
        · rintro ((hm | rfl) | ⟨r, hr, hcr, he⟩)
          · exact Or.inl hm
          · exact Or.inr ⟨x, List.mem_cons_self x xs, hc, rfl⟩
          · exact Or.inr ⟨r, List.mem_cons_of_mem x hr, hcr, he⟩
        · rintro (hm | ⟨r, hr, hcr, he⟩)
          · exact Or.inl (Or.inl hm)
          · rcases List.mem_cons.mp hr with rfl | hr'
            · exact Or.inl (Or.inr he.symm)
            · exact Or.inr ⟨r, hr', hcr, he⟩
      · rw [show addEdges cond edge es (x :: xs) = addEdges cond edge es xs by
            simp [addEdges, hc]]
        rw [ih]
        constructor
        · rintro (hm | ⟨r, hr, hcr, he⟩)
          · exact Or.inl hm
          · exact Or.inr ⟨r, List.mem_cons_of_mem x hr, hcr, he⟩
        · rintro (hm | ⟨r, hr, hcr, he⟩)
          · exact Or.inl hm
          · rcases List.mem_cons.mp hr with rfl | hr'
            · exact absurd hcr hc
            · exact Or.inr ⟨r, hr', hcr, he⟩

theorem addEdges_eq_self {α ε : Type} [DecidableEq ε] (cond : α → Bool)
    (edge : α → ε) (es : List ε) (l : List α)
    (h : ∀ r ∈ l, cond r = true → edge r ∈ es) :
    addEdges cond edge es l = es := by
  induction l with
  | nil => rfl
  | cons x xs ih =>
      by_cases hc : cond x = true
      · rw [show addEdges cond edge es (x :: xs) =
            addEdges cond edge (mergeInto es (edge x)) xs by simp [addEdges, hc]]
        rw [mergeInto_of_mem es (edge x) (h x (List.mem_cons_self x xs) hc)]
        exact ih (fun r hr hcr => h r (List.mem_cons_of_mem x hr) hcr)
      · rw [show addEdges cond edge es (x :: xs) = addEdges cond edge es xs by
            simp [addEdges, hc]]
        exact ih (fun r hr hcr => h r (List.mem_cons_of_mem x hr) hcr)

theorem addEdges_idem {α ε : Type} [DecidableEq ε] (cond : α → Bool)
    (edge : α → ε) (es : List ε) (l : List α) :
    addEdges cond edge (addEdges cond edge es l) l = addEdges cond edge es l := by
  apply addEdges_eq_self
  intro r hr hcr
  rw [mem_addEdges]
  exact Or.inr ⟨r, hr, hcr, rfl⟩

/-! ## Keep-first deduplication (pandas drop_duplicates keep=first) -/

/-- Keep the first row for each key, dropping later rows with the same key. -/
def dedupByKey {α : Type} {κ : Type} [DecidableEq κ] (key : α → κ) :
    List α → List α
  | [] => []
  | x :: xs => x :: dedupByKey key (xs.filter (fun y => decide (¬ key y = key x)))
  termination_by l => l.length
  decreasing_by
    simp only [List.length_cons]
    exact Nat.lt_succ_of_le (List.length_filter_le _ _)

theorem mem_of_mem_dedupByKey {α : Type} {κ : Type} [DecidableEq κ]
    (key : α → κ) (l : List α) (z : α) (hz : z ∈ dedupByKey key l) : z ∈ l := by
  induction l using dedupByKey.induct key with
  | case1 => simp [dedupByKey] at hz
  | case2 x xs ih =>
      rw [dedupByKey] at hz
      rcases List.mem_cons.mp hz with rfl | hz'
      · exact List.mem_cons_self _ _
      · exact List.mem_cons_of_mem x (List.mem_of_mem_filter (ih hz'))

/-- Each survivor of keep-first deduplication is the first row of the
original list carrying its key. -/
theorem dedupByKey_mem_first {α : Type} {κ : Type} [DecidableEq κ]
    (key : α → κ) (l : List α) (z : α) (hz : z ∈ dedupByKey key l) :
    findByKey key (key z) l = some z := by
  induction l using dedupByKey.induct key with
  | case1 => simp [dedupByKey] at hz
  | case2 x xs ih =>
      rw [dedupByKey] at hz
      rcases List.mem_cons.mp hz with rfl | hz'
      · simp [findByKey, List.find?]
      · have hzf : z ∈ xs.filter (fun y => decide (¬ key y = key x)) :=
          mem_of_mem_dedupByKey key _ z hz'
        have hne : ¬ key z = key x := by
          have := List.mem_filter.mp hzf
          simpa using this.2
        have hfirst := ih hz'
        unfold findByKey at hfirst ⊢
        have hhead : ¬ (fun y => decide (key y = key z)) x = true := by
          simp only [decide_eq_true_eq]
          exact fun h => hne h.symm
        rw [show List.find? (fun y => decide (key y = key z)) (x :: xs) =
              List.find? (fun y => decide (key y = key z)) xs from
            List.find?_cons_of_neg xs hhead, ← hfirst]
        exact (find?_filter_of_imp _ _ xs (fun a ha => by
          have hk : key a = key z := of_decide_eq_true ha
          exact decide_eq_true (by rw [hk]; exact hne))).symm

theorem mem_dedupByKey_of_first {α : Type} {κ : Type} [DecidableEq κ]
    (key : α → κ) (l : List α) (k : κ) (r : α)
    (h : findByKey key k l = some r) : r ∈ dedupByKey key l := by
  induction l using dedupByKey.induct key with
  | case1 => simp [findByKey] at h
  | case2 x xs ih =>
      unfold findByKey at h
      by_cases hk : key x = k
      · rw [show List.find? (fun y => decide (key y = k)) (x :: xs) = some x from
            List.find?_cons_of_pos xs (by simpa using hk)] at h
        rw [dedupByKey]
        exact (Option.some_inj.mp h) ▸ List.mem_cons_self x _
      · rw [show List.find? (fun y => decide (key y = k)) (x :: xs) =
              List.find? (fun y => decide (key y = k)) xs from
            List.find?_cons_of_neg xs (by simpa using hk)] at h
        rw [dedupByKey]
        apply List.mem_cons_of_mem
        apply ih
        unfold findByKey
        rw [find?_filter_of_imp _ _ xs (fun a ha => by
          have hka : key a = k := of_decide_eq_true ha
          exact decide_eq_true (by rw [hka]; exact fun hkk => hk hkk.symm))]
        exact h

/-! ## String helpers (character-level embeddings of the Python string ops) -/

/-- Remove leading and trailing whitespace characters (Python str.strip). -/
def charsTrim (cs : List Char) : List Char :=
  ((cs.dropWhile Char.isWhitespace).reverse.dropWhile Char.isWhitespace).reverse

/-- Python str.strip on a string value. -/
def strTrim (s : String) : String := ⟨charsTrim s.data⟩

/-- Python str.lower (ASCII). -/
def lowerStr (s : String) : String := ⟨s.data.map Char.toLower⟩

/-- Split a character list at every character satisfying p, keeping empty
pieces (Python str.split with an explicit separator). -/
def splitPredAux (p : Char → Bool) : List Char → List Char → List (List Char)
  | [], acc => [acc.reverse]
  | c :: cs, acc =>
      if p c then acc.reverse :: splitPredAux p cs []
      else splitPredAux p cs (c :: acc)

/-- Tokenize a policy_alignment value: split on the pipe character and strip
each piece, as in GovernmentKnowledgeGraph._create_policy_alignments. -/
def tokensOf (s : String) : List String :=
  (splitPredAux (fun c => decide (c = '|')) s.data []).map (fun cs => ⟨charsTrim cs⟩)

/-- Python str.lower().split() wrapped in set(): whitespace tokens of the
lower-cased string, empty pieces dropped, deduplicated keeping first
occurrence.  Used by AdvancedSearch.hybrid_search for query and document
term sets. -/
def wordSet (s : String) : List String :=
  (((splitPredAux Char.isWhitespace (lowerStr s).data []).map
      (fun cs => (⟨cs⟩ : String))).filter (fun t => decide (¬ t = ""))).foldl mergeInto []

/-- Digit-string value, if every character is a decimal digit. -/
def digitsVal (cs : List Char) : Option Nat :=
  if cs = [] then none
  else if cs.all Char.isDigit then
    some (cs.foldl (fun a c => a * 10 + (c.toNat - 48)) 0)
  else none

/-- Integer reading of pandas to_numeric(errors=coerce): an optionally
signed decimal literal parses, anything else becomes missing (NaN).  Only
integer literals are modelled. -/
def toNumericCoerce (s : String) : Option Int :=
  match charsTrim s.data with
  | '-' :: rest => (digitsVal rest).map (fun n => -(n : Int))
  | cs => (digitsVal cs).map (fun n => (n : Int))

/-! ## Tabular rows (the column layout of the three input batches) -/

/-- One row of the entities batch (entities.csv). -/
structure EntityRow where
  entity_id : String
  name : String
  entity_type : String
  mandate : String
  state : String
  parent_org : Option String
  policy_alignment : Option String
  latitude : Option ℚ
  longitude : Option ℚ
deriving DecidableEq

/-- One row of the people batch (people.csv).  The confidence_score column
is numeric in pandas; it is embedded as a rational. -/
structure PersonRow where
  person_id : String
  name : String
  title : String
  entity_id : String
  role_type : String
  focus_area : String
  confidence_score : ℚ
  email : String
  source : String
deriving DecidableEq

/-- One raw row of the partners batch (partners.csv); the numeric columns
arrive as uninterpreted text and are coerced by DataPipeline._clean_partners. -/
structure PartnerRow where
  partner_id : String
  company_name : String
  entity_id : String
  relationship_type : String
  contract_value_rm : String
  contract_year : String
  focus_area : String
  procurement_stage : String
deriving DecidableEq

/-- A partners row after DataPipeline._clean_partners: numeric columns
coerced (contract value filled with 0, year left missing when unparsable). -/
structure PartnerRowC where
  partner_id : String
  company_name : String
  entity_id : String
  relationship_type : String
  contract_value_rm : Int
  contract_year : Option Int
  focus_area : String
  procurement_stage : String
deriving DecidableEq

/-! ## Graph nodes and state -/

/-- Attributes SET on an Entity node by import_entities (created_at is not
modelled). -/
structure EntityNode where
  name : String
  entity_type : String
  mandate : String
  state : String
  latitude : Option ℚ
  longitude : Option ℚ
deriving DecidableEq

/-- Attributes SET on a Person node by import_people. -/
structure PersonNode where
  name : String
  title : String
  role_type : String
  focus_area : String
  confidence_score : ℚ
  email : String
  source : String
deriving DecidableEq

/-- Attributes SET on a Company node by import_partners. -/
structure CompanyNode where
  name : String
  focus_area : String
deriving DecidableEq

/-- Attributes SET on a PARTNERS_WITH relationship by import_partners. -/
structure PartnershipAttrs where
  relationship_type : String
  contract_value_rm : Int
  contract_year : Option Int
  procurement_stage : String
deriving DecidableEq

/-- The labeled-property graph state.  Node collections are keyed maps
(uniqueness constraints on entity_id / person_id / partner_id / policy
name); attribute-free edge collections are duplicate-free lists of ordered
endpoint pairs; the PARTNERS_WITH collection is keyed by its ordered
endpoint pair and carries attributes. -/
@[ext] structure Graph where
  entities : String → Option EntityNode
  persons : String → Option PersonNode
  companies : String → Option CompanyNode
  policies : List String
  reportsTo : List (String × String)
  worksFor : List (String × String)
  alignedTo : List (String × String)
  partnersWith : String × String → Option PartnershipAttrs

/-- The graph before any import. -/
def emptyGraph : Graph :=
  ⟨fun _ => none, fun _ => none, fun _ => none, [], [], [], [], fun _ => none⟩

/-- Whether an Entity node with the given identity key exists (a Cypher
MATCH on the entity_id). -/
def entityExists (g : Graph) (eid : String) : Bool := (g.entities eid).isSome

/-! ## Ingestion (GovernmentKnowledgeGraph.import_entities / import_people /
import_partners) -/

def entityNodeOfRow (r : EntityRow) : EntityNode :=
  ⟨r.name, r.entity_type, r.mandate, r.state, r.latitude, r.longitude⟩

def personNodeOfRow (r : PersonRow) : PersonNode :=
  ⟨r.name, r.title, r.role_type, r.focus_area, r.confidence_score, r.email, r.source⟩

def companyNodeOfRow (r : PartnerRowC) : CompanyNode :=
  ⟨r.company_name, r.focus_area⟩

def partnershipAttrsOfRow (r : PartnerRowC) : PartnershipAttrs :=
  ⟨r.relationship_type, r.contract_value_rm, r.contract_year, r.procurement_stage⟩

/-- The (child, parent) candidate pairs of _create_entity_hierarchy: one per
row with a non-null parent_org. -/
def hierarchyRels (b : List EntityRow) : List (String × String) :=
  b.filterMap (fun r => r.parent_org.map (fun p => (r.entity_id, p)))

/-- The MATCH guard of the REPORTS_TO merge: both endpoints resolve. -/
def bothEntitiesExist (ent : String → Option EntityNode) (rel : String × String) : Bool :=
  (ent rel.1).isSome && (ent rel.2).isSome

/-- All policy_alignment tokens of a batch, row by row (the union that
_create_policy_alignments takes; Python iterates it as a set, which only
the merge order, not the resulting node set, depends on). -/
def policyTokens (b : List EntityRow) : List String :=
  b.flatMap (fun r =>
    match r.policy_alignment with
    | some s => tokensOf s
    | none => [])

/-- The (entity_id, policy name) candidate pairs of the ALIGNED_TO merge. -/
def alignmentPairs (b : List EntityRow) : List (String × String) :=
  b.flatMap (fun r =>
    match r.policy_alignment with
    | some s => (tokensOf s).map (fun t => (r.entity_id, t))
    | none => [])

/-- GovernmentKnowledgeGraph.import_entities: merge-by-entity_id of every
row, then REPORTS_TO edges for rows with a resolvable parent_org, then
Policy nodes for every alignment token and ALIGNED_TO edges for every
resolvable (entity, policy) pair. -/
def importEntities (g : Graph) (b : List EntityRow) : Graph :=
  let ent := mergeNodes (fun r => r.entity_id) entityNodeOfRow (fun _ => true) g.entities b
  let rt := addEdges (bothEntitiesExist ent) (fun rel => rel) g.reportsTo (hierarchyRels b)
  let pols := addEdges (fun _ => true) (fun t => t) g.policies (policyTokens b)
  let al := addEdges (fun pr => (ent pr.1).isSome && decide (pr.2 ∈ pols))
    (fun pr => pr) g.alignedTo (alignmentPairs b)
  { g with entities := ent, reportsTo := rt, policies := pols, alignedTo := al }

/-- GovernmentKnowledgeGraph.import_people: merge-by-person_id of every row,
then one WORKS_FOR edge per row whose Person and Entity both resolve (a row
whose entity_id has no Entity node is silently skipped by the MATCH). -/
def importPeople (g : Graph) (b : List PersonRow) : Graph :=
  let ps := mergeNodes (fun r => r.person_id) personNodeOfRow (fun _ => true) g.persons b
  let wf := addEdges (fun pr => (ps pr.1).isSome && (g.entities pr.2).isSome)
    (fun pr => pr) g.worksFor (b.map (fun r => (r.person_id, r.entity_id)))
  { g with persons := ps, worksFor := wf }

/-- GovernmentKnowledgeGraph.import_partners: merge-by-partner_id of every
row into Company nodes, then one PARTNERS_WITH edge per row whose Company
and Entity both resolve, carrying the relationship attributes. -/
def importPartners (g : Graph) (b : List PartnerRowC) : Graph :=
  let cs := mergeNodes (fun r => r.partner_id) companyNodeOfRow (fun _ => true) g.companies b
  let pw := mergeNodes (fun r => (r.partner_id, r.entity_id)) partnershipAttrsOfRow
    (fun r => (cs r.partner_id).isSome && (g.entities r.entity_id).isSome)
    g.partnersWith b
  { g with companies := cs, partnersWith := pw }

/-! ## Cleaning (DataPipeline._clean_people / _clean_partners) and
validation (DataPipeline._validate_relationships)

Dropping of rows with missing critical identity fields is not modelled:
the embedded rows carry total identity columns. -/

/-- Pandas Series.clip(0, 1): values below the lower bound become 0, values
above the upper bound become 1.  Written with explicit comparisons (rather
than lattice min/max, to which it is equal pointwise) so that it evaluates
on concrete rationals. -/
def clamp01 (x : ℚ) : ℚ := if x ≤ 0 then 0 else if 1 ≤ x then 1 else x

/-- The per-row transformations of DataPipeline._clean_people. -/
def cleanPersonRow (r : PersonRow) : PersonRow :=
  { r with
    name := strTrim r.name
    title := strTrim r.title
    confidence_score := clamp01 r.confidence_score
    email := strTrim (lowerStr r.email) }

/-- DataPipeline._clean_people: drop duplicate person_id keeping the first
row, then transform each surviving row. -/
def cleanPeople (rows : List PersonRow) : List PersonRow :=
  (dedupByKey (fun r => r.person_id) rows).map cleanPersonRow

/-- The per-row transformations of DataPipeline._clean_partners; year is
the current year (datetime.now().year), an external input. -/
def cleanPartnerRow (year : Int) (r : PartnerRow) : PartnerRowC :=
  { partner_id := r.partner_id
    company_name := strTrim r.company_name
    entity_id := r.entity_id
    relationship_type := r.relationship_type
    contract_value_rm := (toNumericCoerce r.contract_value_rm).getD 0
    contract_year := (toNumericCoerce r.contract_year).map
      (fun y => max 2000 (min (year + 5) y))
    focus_area := r.focus_area
    procurement_stage := r.procurement_stage }

/-- DataPipeline._clean_partners: drop duplicate partner_id keeping the
first row, then transform each surviving row. -/
def cleanPartners (year : Int) (rows : List PartnerRow) : List PartnerRowC :=
  (dedupByKey (fun r => r.partner_id) rows).map (cleanPartnerRow year)

/-- The count that DataPipeline._validate_relationships logs as a warning
for people rows whose entity_id is not among the entity batch keys. -/
def invalidPeopleCount (eb : List EntityRow) (pb : List PersonRow) : Nat :=
  (pb.filter (fun r => decide (¬ ∃ e ∈ eb, e.entity_id = r.entity_id))).length

/-- The count that DataPipeline._validate_relationships logs as a warning
for entity rows whose non-null parent_org is not among the entity batch
keys. -/
def invalidParentCount (eb : List EntityRow) : Nat :=
  (eb.filter (fun r =>
    r.parent_org.isSome && decide (¬ ∃ e ∈ eb, some e.entity_id = r.parent_org))).length

/-! ## Hierarchy query (GovernmentKnowledgeGraph.get_entity_hierarchy)

The Cypher pattern MATCH path = (e)-[:REPORTS_TO*0..]->(parent) enumerates
every relationship-distinct directed path leaving e, including the
zero-length path, and collects the final node of each.  The embedding
enumerates those paths depth-first, shorter prefixes first, with the
relationship-uniqueness constraint carried in the used argument; the fuel
argument bounds recursion depth and is chosen larger than the number of
REPORTS_TO edges, which no relationship-distinct path can exceed. -/

def ancestorsVisit (es : List (String × String)) :
    Nat → String → List (String × String) → List String
  | 0, x, _ => [x]
  | fuel + 1, x, used =>
      x :: ((es.filter
          (fun p => decide (p.1 = x) && decide (¬ p ∈ used))).flatMap
        (fun p => ancestorsVisit es fuel p.2 (p :: used)))

/-- The parents list collected by get_entity_hierarchy for an entity id
(each collected Cypher map is keyed by the node's entity_id; only the ids
are modelled), or none when the entity does not exist and
result.single() fails. -/
def hierarchyParents (g : Graph) (eid : String) : Option (List String) :=
  if (g.entities eid).isSome then
    some (ancestorsVisit g.reportsTo (g.reportsTo.length + 1) eid [])
  else none

/-! ## Field equations of the import operations -/

theorem importEntities_entities (g : Graph) (b : List EntityRow) :
    (importEntities g b).entities =
      mergeNodes (fun r => r.entity_id) entityNodeOfRow (fun _ => true) g.entities b := rfl

theorem importEntities_policies (g : Graph) (b : List EntityRow) :
    (importEntities g b).policies =
      addEdges (fun _ => true) (fun t => t) g.policies (policyTokens b) := rfl

theorem importEntities_reportsTo (g : Graph) (b : List EntityRow) :
    (importEntities g b).reportsTo =
      addEdges
        (bothEntitiesExist
          (mergeNodes (fun r => r.entity_id) entityNodeOfRow (fun _ => true) g.entities b))
        (fun rel => rel) g.reportsTo (hierarchyRels b) := rfl

theorem importEntities_alignedTo (g : Graph) (b : List EntityRow) :
    (importEntities g b).alignedTo =
      addEdges
        (fun pr =>
          ((mergeNodes (fun r => r.entity_id) entityNodeOfRow (fun _ => true) g.entities b)
              pr.1).isSome &&
            decide (pr.2 ∈ addEdges (fun _ => true) (fun t => t) g.policies (policyTokens b)))
        (fun pr => pr) g.alignedTo (alignmentPairs b) := rfl

theorem importPeople_persons (g : Graph) (b : List PersonRow) :
    (importPeople g b).persons =
      mergeNodes (fun r => r.person_id) personNodeOfRow (fun _ => true) g.persons b := rfl

theorem importPeople_entities (g : Graph) (b : List PersonRow) :
    (importPeople g b).entities = g.entities := rfl

theorem importPeople_worksFor (g : Graph) (b : List PersonRow) :
    (importPeople g b).worksFor =
      addEdges
        (fun pr =>
          ((mergeNodes (fun r => r.person_id) personNodeOfRow (fun _ => true) g.persons b)
              pr.1).isSome && (g.entities pr.2).isSome)
        (fun pr => pr) g.worksFor (b.map (fun r => (r.person_id, r.entity_id))) := rfl

theorem importPartners_companies (g : Graph) (b : List PartnerRowC) :
    (importPartners g b).companies =
      mergeNodes (fun r => r.partner_id) companyNodeOfRow (fun _ => true) g.companies b := rfl

theorem importPartners_entities (g : Graph) (b : List PartnerRowC) :
    (importPartners g b).entities = g.entities := rfl

theorem importPartners_partnersWith (g : Graph) (b : List PartnerRowC) :
    (importPartners g b).partnersWith =
      mergeNodes (fun r => (r.partner_id, r.entity_id)) partnershipAttrsOfRow
        (fun r =>
          ((mergeNodes (fun r => r.partner_id) companyNodeOfRow (fun _ => true) g.companies b)
              r.partner_id).isSome && (g.entities r.entity_id).isSome)
        g.partnersWith b := rfl

/-! ## Idempotence of the three import operations -/

theorem importEntities_idem (g : Graph) (b : List EntityRow) :
    importEntities (importEntities g b) b = importEntities g b := by
  apply Graph.ext
  · simp only [importEntities_entities, mergeNodes_idem]
  · rfl
  · rfl
  · simp only [importEntities_policies, addEdges_idem]
  · simp only [importEntities_reportsTo, importEntities_entities, mergeNodes_idem,
      addEdges_idem]
  · rfl
  · simp only [importEntities_alignedTo, importEntities_entities, importEntities_policies,
      mergeNodes_idem, addEdges_idem]
  · rfl

theorem importPeople_idem (g : Graph) (b : List PersonRow) :
    importPeople (importPeople g b) b = importPeople g b := by
  apply Graph.ext
  · rfl
  · simp only [importPeople_persons, mergeNodes_idem]
  · rfl
  · rfl
  · rfl
  · simp only [importPeople_worksFor, importPeople_persons, importPeople_entities,
      mergeNodes_idem, addEdges_idem]
  · rfl
  · rfl

theorem importPartners_idem (g : Graph) (b : List PartnerRowC) :
    importPartners (importPartners g b) b = importPartners g b := by
  apply Graph.ext
  · rfl
  · rfl
  · simp only [importPartners_companies, mergeNodes_idem]
  · rfl
  · rfl
  · rfl
  · rfl
  · simp only [importPartners_partnersWith, importPartners_companies,
      importPartners_entities, mergeNodes_idem]

/-- C1: graph ingestion is idempotent.  Running import_entities,
import_people or import_partners twice on the same batch leaves exactly the
graph produced by running it once: re-ingesting a record for an existing
identity key overwrites the node attributes in place and the MERGE
semantics create no duplicate node and no duplicate edge between the same
ordered endpoint pair, so node sets and edge sets (and all stored
attributes) coincide. -/
theorem import_operations_idempotent (g : Graph) (eb : List EntityRow)
    (pb : List PersonRow) (cb : List PartnerRowC) :
    importEntities (importEntities g eb) eb = importEntities g eb ∧
    importPeople (importPeople g pb) pb = importPeople g pb ∧
    importPartners (importPartners g cb) cb = importPartners g cb :=
  ⟨importEntities_idem g eb, importPeople_idem g pb, importPartners_idem g cb⟩

/-! ## Remaining field equations used by the per-claim theorems -/

theorem importEntities_worksFor (g : Graph) (b : List EntityRow) :
    (importEntities g b).worksFor = g.worksFor := rfl

theorem importPeople_worksFor_base (g : Graph) (b : List PersonRow) :
    (importPeople g b).entities = g.entities := rfl

/-- Every row of an entity batch exists as an Entity node after the batch
is imported (the node merge precedes the relationship merges). -/
theorem batch_entity_exists (g : Graph) (b : List EntityRow) (r : EntityRow)
    (hr : r ∈ b) : entityExists (importEntities g b) r.entity_id = true := by
  show ((importEntities g b).entities r.entity_id).isSome = true
  rw [importEntities_entities]
  exact mergeNodes_isSome_of_mem (fun r => r.entity_id) entityNodeOfRow
    (fun _ => true) g.entities b r hr rfl

/-! ## C2: confidence clamping -/

/-- Looking up a person after cleaning and importing a batch returns the
node built from the cleaned first row carrying that person_id. -/
theorem cleanPeople_lookup (g : Graph) (rows : List PersonRow) (r : PersonRow)
    (h : findByKey (fun x => x.person_id) r.person_id rows = some r) :
    (importPeople g (cleanPeople rows)).persons r.person_id =
      some (personNodeOfRow (cleanPersonRow r)) := by
  rw [importPeople_persons, mergeNodes_apply]
  rw [List.filter_true]
  have hmem : cleanPersonRow r ∈ cleanPeople rows :=
    List.mem_map_of_mem cleanPersonRow
      (mem_dedupByKey_of_first (fun x => x.person_id) rows r.person_id r h)
  have huniq : ∀ y ∈ cleanPeople rows,
      y.person_id = (cleanPersonRow r).person_id → y = cleanPersonRow r := by
    intro y hy hkey
    obtain ⟨z, hz, rfl⟩ := List.mem_map.mp hy
    have hz1 : findByKey (fun x => x.person_id) z.person_id rows = some z :=
      dedupByKey_mem_first (fun x => x.person_id) rows z hz
    have hzkey : z.person_id = r.person_id := hkey
    rw [hzkey] at hz1
    exact congrArg cleanPersonRow (Option.some_inj.mp (hz1.symm.trans h))
  have hfind : (cleanPeople rows).reverse.find?
      (fun y => decide (y.person_id = (cleanPersonRow r).person_id)) =
      some (cleanPersonRow r) :=
    reverse_find?_eq_of_unique (fun p : PersonRow => p.person_id)
      (cleanPeople rows) (cleanPersonRow r) hmem huniq
  exact hfind ▸ rfl

/-- C2: for every person row that survives cleaning (the first row of the
batch carrying its person_id), the confidence_score stored on the Person
node by the pipeline (clean, then import) is the input value clamped into
[0, 1]. -/
theorem confidence_score_clamped (g : Graph) (rows : List PersonRow) (r : PersonRow)
    (h : findByKey (fun x => x.person_id) r.person_id rows = some r) :
    Option.map (fun n => n.confidence_score)
        ((importPeople g (cleanPeople rows)).persons r.person_id) =
      some (clamp01 r.confidence_score) := by
  rw [cleanPeople_lookup g rows r h]
  rfl

def cwPersonHigh : PersonRow :=
  { person_id := "P1", name := "Gobind Singh Deo", title := "Minister",
    entity_id := "MIN001", role_type := "Political", focus_area := "Digital Policy",
    confidence_score := 7 / 5, email := "minister@digital.gov.my", source := "web" }

def cwPersonLow : PersonRow :=
  { person_id := "P2", name := "Mahadhir Aziz", title := "CEO",
    entity_id := "AGN001", role_type := "Executive", focus_area := "Digital Economy",
    confidence_score := -(1 / 5), email := "ceo@mdec.my", source := "web" }

/-- Witness for C2: a confidence of 1.4 is stored as 1.0 and a confidence
of -0.2 is stored as 0.0. -/
theorem confidence_score_clamped_witness :
    Option.map (fun n => n.confidence_score)
        ((importPeople emptyGraph (cleanPeople [cwPersonHigh])).persons "P1") =
      some 1 ∧
    Option.map (fun n => n.confidence_score)
        ((importPeople emptyGraph (cleanPeople [cwPersonLow])).persons "P2") =
      some 0 := by
  constructor
  · exact (confidence_score_clamped emptyGraph [cwPersonHigh] cwPersonHigh
      (by rfl)).trans (by norm_num [clamp01, cwPersonHigh])
  · exact (confidence_score_clamped emptyGraph [cwPersonLow] cwPersonLow
      (by rfl)).trans (by norm_num [clamp01, cwPersonLow])

/-! ## C4: REPORTS_TO referential integrity -/

/-- C4: a REPORTS_TO edge for an entity row with a non-null parent_org is
present after the import exactly when both endpoints exist as Entity nodes
(the MATCH guard); and whenever the parent does not exist, the row is among
those counted (and logged as a warning, not an error) by
_validate_relationships, while no edge is produced.  The import itself is a
total function: a missing parent never raises. -/
theorem reports_to_edge_iff (g : Graph) (b : List EntityRow) (r : EntityRow)
    (p : String) (hr : r ∈ b) (hp : r.parent_org = some p)
    (hfresh : (r.entity_id, p) ∉ g.reportsTo) :
    ((r.entity_id, p) ∈ (importEntities g b).reportsTo ↔
      entityExists (importEntities g b) r.entity_id = true ∧
      entityExists (importEntities g b) p = true) ∧
    (entityExists (importEntities g b) p = false → 1 ≤ invalidParentCount b) := by
  constructor
  · rw [importEntities_reportsTo, mem_addEdges]
    constructor
    · rintro (hmem | ⟨rel, _, hcond, heq⟩)
      · exact absurd hmem hfresh
      · rw [heq] at hcond
        simp only [bothEntitiesExist, Bool.and_eq_true] at hcond
        exact ⟨hcond.1, hcond.2⟩
    · rintro ⟨h1, h2⟩
      refine Or.inr ⟨(r.entity_id, p), ?_, ?_, rfl⟩
      · exact List.mem_filterMap.mpr ⟨r, hr, by rw [hp]; rfl⟩
      · show bothEntitiesExist _ _ = true
        simp only [bothEntitiesExist, Bool.and_eq_true]
        exact ⟨h1, h2⟩
  · intro hmiss
    have hnot : ¬ ∃ e ∈ b, some e.entity_id = r.parent_org := by
      rintro ⟨e, he, hee⟩
      rw [hp] at hee
      have : e.entity_id = p := Option.some_inj.mp hee
      rw [← this] at hmiss
      rw [batch_entity_exists g b e he] at hmiss
      cases hmiss
    have hmem : r ∈ b.filter (fun r =>
        r.parent_org.isSome && decide (¬ ∃ e ∈ b, some e.entity_id = r.parent_org)) := by
      refine List.mem_filter.mpr ⟨hr, ?_⟩
      rw [Bool.and_eq_true]
      exact ⟨by rw [hp]; rfl, decide_eq_true hnot⟩
    exact List.length_pos.mpr (List.ne_nil_of_mem hmem)

def cwEntityParent : EntityRow :=
  { entity_id := "MIN001", name := "Ministry of Digital", entity_type := "Ministry",
    mandate := "Lead digital transformation", state := "Federal", parent_org := none,
    policy_alignment := none, latitude := none, longitude := none }

def cwEntityChild : EntityRow :=
  { entity_id := "AGN001", name := "MDEC", entity_type := "Agency",
    mandate := "Drive digital economy", state := "Federal",
    parent_org := some "MIN001", policy_alignment := none,
    latitude := none, longitude := none }

def cwEntityOrphan : EntityRow :=
  { entity_id := "AGN002", name := "Orphan Agency", entity_type := "Agency",
    mandate := "None", state := "Federal", parent_org := some "MISSING",
    policy_alignment := none, latitude := none, longitude := none }

/-- Witness for C4, on a batch with one resolvable parent_org and one
dangling one: the resolvable edge is characterized by the iff (and is in
fact present), and the dangling parent is counted. -/
theorem reports_to_edge_iff_witness :
    (("AGN001", "MIN001") ∈
        (importEntities emptyGraph [cwEntityParent, cwEntityChild, cwEntityOrphan]).reportsTo ↔
      entityExists (importEntities emptyGraph [cwEntityParent, cwEntityChild, cwEntityOrphan])
          "AGN001" = true ∧
      entityExists (importEntities emptyGraph [cwEntityParent, cwEntityChild, cwEntityOrphan])
          "MIN001" = true) ∧
    (entityExists (importEntities emptyGraph [cwEntityParent, cwEntityChild, cwEntityOrphan])
        "MISSING" = false →
      1 ≤ invalidParentCount [cwEntityParent, cwEntityChild, cwEntityOrphan]) := by
  have h := reports_to_edge_iff emptyGraph [cwEntityParent, cwEntityChild, cwEntityOrphan]
    cwEntityChild "MIN001"
    (List.mem_cons_of_mem _ (List.mem_cons_self _ _)) rfl (by decide)
  have h2 := reports_to_edge_iff emptyGraph [cwEntityParent, cwEntityChild, cwEntityOrphan]
    cwEntityOrphan "MISSING"
    (List.mem_cons_of_mem _ (List.mem_cons_of_mem _ (List.mem_cons_self _ _))) rfl (by decide)
  exact ⟨h.1, h2.2⟩

/-! ## C5: people rows with a dangling entity_id -/

/-- C5: a person row whose entity_id resolves to no Entity node after the
entity batch is imported produces no WORKS_FOR edge (the MATCH guard skips
it, without raising), and the row is counted by _validate_relationships,
which logs the count as a warning. -/
theorem missing_entity_person_skipped (g : Graph) (eb : List EntityRow)
    (pb : List PersonRow) (r : PersonRow) (hr : r ∈ pb)
    (hmiss : entityExists (importEntities g eb) r.entity_id = false)
    (hfresh : (r.person_id, r.entity_id) ∉ g.worksFor) :
    (r.person_id, r.entity_id) ∉ (importPeople (importEntities g eb) pb).worksFor ∧
    1 ≤ invalidPeopleCount eb pb := by
  constructor
  · rw [importPeople_worksFor, mem_addEdges]
    rintro (hmem | ⟨pr, _, hcond, heq⟩)
    · rw [importEntities_worksFor] at hmem
      exact hfresh hmem
    · rw [heq] at hcond
      simp only [Bool.and_eq_true] at hcond
      have : ((importEntities g eb).entities r.entity_id).isSome = true := hcond.2
      rw [show entityExists (importEntities g eb) r.entity_id =
            ((importEntities g eb).entities r.entity_id).isSome from rfl] at hmiss
      rw [this] at hmiss
      cases hmiss
  · have hnot : ¬ ∃ e ∈ eb, e.entity_id = r.entity_id := by
      rintro ⟨e, he, hee⟩
      rw [← hee] at hmiss
      rw [batch_entity_exists g eb e he] at hmiss
      cases hmiss
    have hmem : r ∈ pb.filter (fun r => decide (¬ ∃ e ∈ eb, e.entity_id = r.entity_id)) :=
      List.mem_filter.mpr ⟨hr, decide_eq_true hnot⟩
    exact List.length_pos.mpr (List.ne_nil_of_mem hmem)

def cwPersonDangling : PersonRow :=
  { person_id := "P9", name := "Nobody", title := "Officer",
    entity_id := "GONE", role_type := "Executive", focus_area := "AI",
    confidence_score := 1 / 2, email := "n@x.my", source := "web" }

/-- Witness for C5: with one entity MIN001 and a person row pointing at the
absent entity GONE, no WORKS_FOR edge appears and the skip is counted. -/
theorem missing_entity_person_skipped_witness :
    ("P9", "GONE") ∉
        (importPeople (importEntities emptyGraph [cwEntityParent]) [cwPersonDangling]).worksFor ∧
    1 ≤ invalidPeopleCount [cwEntityParent] [cwPersonDangling] :=
  missing_entity_person_skipped emptyGraph [cwEntityParent] [cwPersonDangling]
    cwPersonDangling (List.mem_cons_self _ _) (by decide) (by decide)

/-! ## C6: non-numeric contract values -/

/-- C6: a partner row whose contract_value_rm fails numeric coercion is not
dropped and does not raise: the pipeline (clean, then import) still merges
its Company node and its PARTNERS_WITH edge, and the stored contract value
is the safe default 0 (pandas to_numeric(errors=coerce).fillna(0)). -/
theorem nonnumeric_contract_value_default (g : Graph) (year : Int)
    (rows : List PartnerRow) (r : PartnerRow)
    (h : findByKey (fun x => x.partner_id) r.partner_id rows = some r)
    (hnn : toNumericCoerce r.contract_value_rm = none)
    (hent : entityExists g r.entity_id = true) :
    Option.map (fun a => a.contract_value_rm)
        ((importPartners g (cleanPartners year rows)).partnersWith
          (r.partner_id, r.entity_id)) = some 0 ∧
    ((importPartners g (cleanPartners year rows)).companies r.partner_id).isSome
      = true := by
  have hmem : cleanPartnerRow year r ∈ cleanPartners year rows :=
    List.mem_map_of_mem (cleanPartnerRow year)
      (mem_dedupByKey_of_first (fun x => x.partner_id) rows r.partner_id r h)
  have huniq : ∀ y ∈ cleanPartners year rows,
      y.partner_id = r.partner_id → y = cleanPartnerRow year r := by
    intro y hy hkey
    obtain ⟨z, hz, rfl⟩ := List.mem_map.mp hy
    have hz1 : findByKey (fun x => x.partner_id) z.partner_id rows = some z :=
      dedupByKey_mem_first (fun x => x.partner_id) rows z hz
    have hzkey : z.partner_id = r.partner_id := hkey
    rw [hzkey] at hz1
    exact congrArg (cleanPartnerRow year) (Option.some_inj.mp (hz1.symm.trans h))
  have hcomp : ((importPartners g (cleanPartners year rows)).companies
      r.partner_id).isSome = true := by
    rw [importPartners_companies]
    exact mergeNodes_isSome_of_mem (fun x => x.partner_id) companyNodeOfRow
      (fun _ => true) g.companies (cleanPartners year rows)
      (cleanPartnerRow year r) hmem rfl
  refine ⟨?_, hcomp⟩
  rw [importPartners_partnersWith, mergeNodes_apply]
  have hcond : (((mergeNodes (fun x => x.partner_id) companyNodeOfRow (fun _ => true)
        g.companies (cleanPartners year rows)) (cleanPartnerRow year r).partner_id).isSome
        && ((g.entities (cleanPartnerRow year r).entity_id).isSome)) = true := by
    rw [Bool.and_eq_true]
    constructor
    · exact mergeNodes_isSome_of_mem (fun x => x.partner_id) companyNodeOfRow
        (fun _ => true) g.companies (cleanPartners year rows)
        (cleanPartnerRow year r) hmem rfl
    · exact hent
  have hfilter : cleanPartnerRow year r ∈
      (cleanPartners year rows).filter (fun x =>
        ((mergeNodes (fun x => x.partner_id) companyNodeOfRow (fun _ => true)
            g.companies (cleanPartners year rows)) x.partner_id).isSome
          && (g.entities x.entity_id).isSome) :=
    List.mem_filter.mpr ⟨hmem, hcond⟩
  have hfind := reverse_find?_eq_of_unique
    (fun y : PartnerRowC => (y.partner_id, y.entity_id))
    ((cleanPartners year rows).filter (fun x =>
      ((mergeNodes (fun x => x.partner_id) companyNodeOfRow (fun _ => true)
          g.companies (cleanPartners year rows)) x.partner_id).isSome
        && (g.entities x.entity_id).isSome))
    (cleanPartnerRow year r) hfilter
    (by
      intro y hy hkey
      exact huniq y (List.mem_of_mem_filter hy) (congrArg Prod.fst hkey))
  have hval : some (partnershipAttrsOfRow (cleanPartnerRow year r)).contract_value_rm =
      some (0 : Int) := by
    show some ((toNumericCoerce r.contract_value_rm).getD 0) = some 0
    rw [hnn]
    rfl
  exact hfind ▸ hval

def cwPartnerNaN : PartnerRow :=
  { partner_id := "COMP001", company_name := " TechMalaysia Solutions ",
    entity_id := "MIN001", relationship_type := "Service Provider",
    contract_value_rm := "not a number", contract_year := "2024",
    focus_area := "Digital Infrastructure", procurement_stage := "Active" }

/-- Witness for C6: the literal row with contract_value_rm set to the text
"not a number" is ingested with its PARTNERS_WITH edge and a stored value
of 0. -/
theorem nonnumeric_contract_value_default_witness :
    Option.map (fun a => a.contract_value_rm)
        ((importPartners (importEntities emptyGraph [cwEntityParent])
            (cleanPartners 2025 [cwPartnerNaN])).partnersWith
          ("COMP001", "MIN001")) = some 0 ∧
    ((importPartners (importEntities emptyGraph [cwEntityParent])
        (cleanPartners 2025 [cwPartnerNaN])).companies "COMP001").isSome = true :=
  nonnumeric_contract_value_default (importEntities emptyGraph [cwEntityParent])
    2025 [cwPartnerNaN] cwPartnerNaN rfl (by decide) (by decide)

/-! ## C7: policy tokenization -/

/-- C7: for an entity row whose policy_alignment is present (and which is
the only batch row carrying its entity_id, with no pre-existing ALIGNED_TO
edges), the ALIGNED_TO edges leaving that entity after the import are
exactly one per distinct token of the pipe-split, stripped policy string,
and a Policy node exists for every token (created lazily from the union of
tokens). -/
theorem policy_alignment_tokenization (g : Graph) (b : List EntityRow)
    (r : EntityRow) (s : String) (hr : r ∈ b) (hs : r.policy_alignment = some s)
    (huniq : ∀ x ∈ b, x.entity_id = r.entity_id → x = r)
    (hfresh : ∀ t, (r.entity_id, t) ∉ g.alignedTo) :
    (∀ t, ((r.entity_id, t) ∈ (importEntities g b).alignedTo ↔ t ∈ tokensOf s)) ∧
    (∀ t ∈ tokensOf s, t ∈ (importEntities g b).policies) := by
  have hpol : ∀ t ∈ tokensOf s, t ∈ (importEntities g b).policies := by
    intro t ht
    rw [importEntities_policies, mem_addEdges]
    refine Or.inr ⟨t, ?_, rfl, rfl⟩
    refine List.mem_flatMap.mpr ⟨r, hr, ?_⟩
    rw [hs]
    exact ht
  refine ⟨?_, hpol⟩
  intro t
  rw [importEntities_alignedTo, mem_addEdges]
  constructor
  · rintro (hmem | ⟨pr, hpr, _, heq⟩)
    · exact absurd hmem (hfresh t)
    · obtain ⟨x, hx, hprx⟩ := List.mem_flatMap.mp hpr
      cases hpa : x.policy_alignment with
      | none => rw [hpa] at hprx; cases hprx
      | some s2 =>
          rw [hpa] at hprx
          obtain ⟨tok, htok, hpair⟩ := List.mem_map.mp hprx
          have heq2 : pr = (r.entity_id, t) := heq
          rw [← hpair] at heq2
          have hxid : x.entity_id = r.entity_id := congrArg Prod.fst heq2
          have hxr : x = r := huniq x hx hxid
          rw [hxr] at hpa
          rw [hs] at hpa
          have hs2 : s2 = s := (Option.some_inj.mp hpa).symm
          have htok2 : t = tok := (congrArg Prod.snd heq2).symm
          rw [htok2, ← hs2]
          exact htok
  · intro ht
    refine Or.inr ⟨(r.entity_id, t), ?_, ?_, rfl⟩
    · refine List.mem_flatMap.mpr ⟨r, hr, ?_⟩
      rw [hs]
      exact List.mem_map.mpr ⟨t, ht, rfl⟩
    · rw [Bool.and_eq_true]
      constructor
      · exact mergeNodes_isSome_of_mem (fun x => x.entity_id) entityNodeOfRow
          (fun _ => true) g.entities b r hr rfl
      · exact decide_eq_true (hpol t ht)

def cwEntityPolicy : EntityRow :=
  { entity_id := "MIN001", name := "Ministry of Digital", entity_type := "Ministry",
    mandate := "Lead digital transformation", state := "Federal", parent_org := none,
    policy_alignment := some "MyDIGITAL|AI Roadmap", latitude := none,
    longitude := none }

/-- Witness for C7: the row with policy_alignment MyDIGITAL|AI Roadmap
produces exactly the two edges to the two distinct Policy nodes. -/
theorem policy_alignment_tokenization_witness :
    (∀ t, (("MIN001", t) ∈
        (importEntities emptyGraph [cwEntityPolicy]).alignedTo ↔
      t ∈ tokensOf "MyDIGITAL|AI Roadmap")) ∧
    tokensOf "MyDIGITAL|AI Roadmap" = ["MyDIGITAL", "AI Roadmap"] ∧
    (importEntities emptyGraph [cwEntityPolicy]).alignedTo =
      [("MIN001", "MyDIGITAL"), ("MIN001", "AI Roadmap")] ∧
    (importEntities emptyGraph [cwEntityPolicy]).policies =
      ["MyDIGITAL", "AI Roadmap"] := by
  refine ⟨(policy_alignment_tokenization emptyGraph [cwEntityPolicy] cwEntityPolicy
      "MyDIGITAL|AI Roadmap" (List.mem_cons_self _ _) rfl
      (fun x hx _ => List.mem_singleton.mp hx)
      (fun t => List.not_mem_nil _)).1, ?_, ?_, ?_⟩
  · decide
  · decide
  · decide

/-! ## C3: the hierarchy query on a two-step chain -/

def cwChainA : EntityRow :=
  { entity_id := "A", name := "Top", entity_type := "Ministry", mandate := "m",
    state := "Federal", parent_org := none, policy_alignment := none,
    latitude := none, longitude := none }

def cwChainB : EntityRow :=
  { entity_id := "B", name := "Mid", entity_type := "Agency", mandate := "m",
    state := "Federal", parent_org := some "A", policy_alignment := none,
    latitude := none, longitude := none }

def cwChainC : EntityRow :=
  { entity_id := "C", name := "Leaf", entity_type := "Department", mandate := "m",
    state := "Federal", parent_org := some "B", policy_alignment := none,
    latitude := none, longitude := none }

def cwChainGraph : Graph := importEntities emptyGraph [cwChainA, cwChainB, cwChainC]

/-- Counterexample to C3 as stated: on the ingested chain C reports to B
reports to A, the parents list collected by get_entity_hierarchy is
[C, B, A], not [B, A] — the Cypher variable-length pattern REPORTS_TO*0..
matches the zero-length path, so the entity itself is collected among its
own parents. -/
theorem hierarchy_includes_self_counterexample :
    hierarchyParents cwChainGraph "C" = some ["C", "B", "A"] ∧
    hierarchyParents cwChainGraph "C" ≠ some ["B", "A"] := by
  constructor
  · decide
  · decide

/-- C3 as amended: for a chain of distinct entities where the REPORTS_TO
edges are exactly C to B and B to A (in the order the import produces), the
hierarchy query on C returns the parents [C, B, A]: the entity itself
first (zero-length path), then its ancestors B and A in order, and no
other node. -/
theorem hierarchy_chain_parents (g : Graph) (a b c : String)
    (hab : a ≠ b) (hac : a ≠ c) (hbc : b ≠ c)
    (hc : (g.entities c).isSome = true)
    (hrt : g.reportsTo = [(b, a), (c, b)]) :
    hierarchyParents g c = some [c, b, a] := by
  unfold hierarchyParents
  rw [hrt, if_pos hc]
  have hfilter1 : ([(b, a), (c, b)]).filter
      (fun p => decide (p.1 = c) && decide (¬ p ∈ ([] : List (String × String)))) =
      [(c, b)] := by
    simp [List.filter, hbc]
  have hfilter2 : ([(b, a), (c, b)]).filter
      (fun p => decide (p.1 = b) && decide (¬ p ∈ [((c : String), b)])) =
      [(b, a)] := by
    simp [List.filter, Prod.ext_iff, hab, fun h : c = b => hbc h.symm]
  have hfilter3 : ([(b, a), (c, b)]).filter
      (fun p => decide (p.1 = a) && decide (¬ p ∈ [((b : String), a), (c, b)])) =
      [] := by
    simp [List.filter, fun h : b = a => hab h.symm, fun h : c = a => hac h.symm]
  show some (ancestorsVisit [(b, a), (c, b)] (2 + 1) c []) = some [c, b, a]
  rw [ancestorsVisit, hfilter1]
  rw [show ([((c : String), b)]).flatMap
        (fun p => ancestorsVisit [(b, a), (c, b)] (1 + 1) p.2 [p]) =
      ancestorsVisit [(b, a), (c, b)] (1 + 1) b [(c, b)] from by
    simp [List.flatMap]]
  rw [ancestorsVisit, hfilter2]
  rw [show ([((b : String), a)]).flatMap
        (fun p => ancestorsVisit [(b, a), (c, b)] (0 + 1) p.2 [p, (c, b)]) =
      ancestorsVisit [(b, a), (c, b)] (0 + 1) a [(b, a), (c, b)] from by
    simp [List.flatMap]]
  rw [ancestorsVisit, hfilter3]
  rfl

/-- Witness for the amended C3, on the ingested three-entity chain. -/
theorem hierarchy_chain_parents_witness :
    hierarchyParents cwChainGraph "C" = some ["C", "B", "A"] :=
  hierarchy_chain_parents cwChainGraph "A" "B" "C" (by decide) (by decide)
    (by decide) (by decide) (by decide)

/-! ## C9: most-connected-nodes ranking (Neo4jConnector.get_graph_statistics)

The connector views the store as plain nodes (internal id, first label,
name) and typed directed relationships.  Degree is the number of
relationships incident to a node in either direction; the query keeps
nodes of positive degree, orders by descending degree (ties keeping a
fixed, stable order) and returns at most 10 rows. -/

/-- A node as the connector's statistics query sees it. -/
structure NodeRec where
  nid : Nat
  label : String
  name : String
deriving DecidableEq

/-- A directed relationship between internal node ids. -/
structure RelRec where
  src : Nat
  dst : Nat
  typ : String
deriving DecidableEq

/-- The connector's view of the stored graph. -/
structure PGraph where
  nodes : List NodeRec
  rels : List RelRec

/-- One row of the most_connected result: name, first label, degree. -/
structure ConnRow where
  name : String
  typ : String
  connections : Nat
deriving DecidableEq

/-- Degree over all relationship directions: the OPTIONAL MATCH (n)-[r]-()
count. -/
def degree (pg : PGraph) (n : NodeRec) : Nat :=
  (pg.rels.filter (fun r => decide (r.src = n.nid) || decide (r.dst = n.nid))).length

/-- The optional first-label filter of get_graph_statistics. -/
def labelOk (fl : Option (List String)) (n : NodeRec) : Bool :=
  match fl with
  | none => true
  | some ls => decide (n.label ∈ ls)

/-- Descending-degree order on result rows. -/
def connGE (x y : ConnRow) : Prop := y.connections ≤ x.connections

instance : DecidableRel connGE :=
  fun x y => decidable_of_iff (y.connections ≤ x.connections) Iff.rfl

instance : IsTotal ConnRow connGE :=
  ⟨fun x y => Nat.le_total y.connections x.connections⟩

instance : IsTrans ConnRow connGE :=
  ⟨fun _ _ _ h1 h2 => Nat.le_trans h2 h1⟩

/-- The most_connected part of Neo4jConnector.get_graph_statistics: nodes
passing the label filter, mapped to (name, label, degree), kept when the
degree is positive, ordered by descending degree (stable sort) and capped
at 10. -/
def mostConnected (pg : PGraph) (fl : Option (List String)) : List ConnRow :=
  (List.insertionSort connGE
    (((pg.nodes.filter (labelOk fl)).map
        (fun n => ⟨n.name, n.label, degree pg n⟩)).filter
      (fun c => decide (0 < c.connections)))).take 10

/-- C9: the most-connected-nodes query is a pure function of the stored
graph, so two calls on a fixed graph return identical ordered results; the
result holds at most 10 rows, is sorted by non-increasing degree with a
deterministic tie order, and every row is some stored node passing the
label filter annotated with its all-directions degree, which is positive. -/
theorem most_connected_deterministic (pg : PGraph) (fl : Option (List String)) :
    mostConnected pg fl = mostConnected pg fl ∧
    (mostConnected pg fl).length ≤ 10 ∧
    List.Sorted connGE (mostConnected pg fl) ∧
    (∀ c ∈ mostConnected pg fl,
      0 < c.connections ∧
        ∃ n ∈ pg.nodes, labelOk fl n = true ∧ c = ⟨n.name, n.label, degree pg n⟩) := by
  refine ⟨rfl, ?_, ?_, ?_⟩
  · exact List.length_take_le 10 _
  · exact List.Pairwise.sublist (List.take_sublist _ _)
      (List.sorted_insertionSort connGE _)
  · intro c hc
    have hc2 := List.mem_of_mem_take hc
    have hc3 := (List.perm_insertionSort connGE _).subset hc2
    obtain ⟨hmem, hpos⟩ := List.mem_filter.mp hc3
    obtain ⟨n, hn, rfl⟩ := List.mem_map.mp hmem
    obtain ⟨hn2, hlab⟩ := List.mem_filter.mp hn
    exact ⟨by simpa using hpos, n, hn2, hlab, rfl⟩

/-! ## C10: hybrid search (AdvancedSearch.hybrid_search)

The semantic backend (embedding model plus vector store) is external; the
three per-collection semantic result lists are therefore inputs of the
embedded reranking function, each hit carrying its synthesized document
and its relevance score.  The reranking itself — query tokenization,
token-overlap keyword score, blended hybrid score, sort, cap — is embedded
from the source. -/

/-- One semantic search result as hybrid_search consumes it. -/
structure SearchHit where
  document : String
  relevance : ℚ
deriving DecidableEq

/-- The concatenation of the three per-category semantic result lists, in
the category order the source iterates. -/
def allSemanticResults (ents ppl prts : List SearchHit) : List (SearchHit × String) :=
  ents.map (fun h => (h, "entities")) ++ ppl.map (fun h => (h, "people")) ++
    prts.map (fun h => (h, "partners"))

/-- Token-overlap keyword score: shared distinct tokens over query tokens.
Evaluated only when the query token set is non-empty; on an empty set the
source raises ZeroDivisionError, which hybridSearch models explicitly. -/
def keywordScore (qts : List String) (doc : String) : ℚ :=
  ((qts.filter (fun t => decide (t ∈ wordSet doc))).length : ℚ) / (qts.length : ℚ)

/-- The blended score (1 - keyword_boost) * relevance + keyword_boost *
keyword_score. -/
def hybridScore (qts : List String) (kb : ℚ) (h : SearchHit) : ℚ :=
  (1 - kb) * h.relevance + kb * keywordScore qts h.document

/-- A reranked result row: the hit, its category, its hybrid score. -/
structure RankedHit where
  hit : SearchHit
  category : String
  score : ℚ
deriving DecidableEq

/-- Descending-hybrid-score order on reranked rows. -/
def scoreGE (x y : RankedHit) : Prop := y.score ≤ x.score

instance : DecidableRel scoreGE :=
  fun x y => decidable_of_iff (y.score ≤ x.score) Iff.rfl

instance : IsTotal RankedHit scoreGE := ⟨fun x y => le_total y.score x.score⟩

instance : IsTrans RankedHit scoreGE := ⟨fun _ _ _ h1 h2 => le_trans h2 h1⟩

/-- AdvancedSearch.hybrid_search over given per-collection semantic
results: with no semantic results at all the loop body never runs and the
empty list is returned; otherwise, a query with an empty token set hits
the division by len(query_terms) on the first result and the call raises
ZeroDivisionError; otherwise every result is scored, sorted by descending
hybrid score and capped at n_results. -/
def hybridSearch (ents ppl prts : List SearchHit) (query : String) (kb : ℚ)
    (n : Nat) : Except String (List RankedHit) :=
  let qts := wordSet query
  let all := allSemanticResults ents ppl prts
  if all.isEmpty then Except.ok []
  else if qts.isEmpty then Except.error "ZeroDivisionError"
  else Except.ok ((List.insertionSort scoreGE
    (all.map (fun hc => ⟨hc.1, hc.2, hybridScore qts kb hc.1⟩))).take n)

/-- Counterexample to C10 as stated: a call whose query has no
whitespace-separated tokens does not raise when the semantic search
returns no results — with empty collections it returns the empty result
list instead. -/
theorem hybrid_search_empty_counterexample :
    hybridSearch [] [] [] " " (3 / 10) 10 = Except.ok [] ∧
    wordSet " " = [] := by
  constructor
  · rfl
  · rfl

/-- C10 as amended: with no semantic results the call returns the empty
list; with at least one semantic result and a token-free query it raises
ZeroDivisionError; and for every query with at least one token the call
returns at most n results sorted by descending hybrid score. -/
theorem hybrid_search_spec (ents ppl prts : List SearchHit) (query : String)
    (kb : ℚ) (n : Nat) :
    (allSemanticResults ents ppl prts = [] →
      hybridSearch ents ppl prts query kb n = Except.ok []) ∧
    (allSemanticResults ents ppl prts ≠ [] → wordSet query = [] →
      hybridSearch ents ppl prts query kb n = Except.error "ZeroDivisionError") ∧
    (wordSet query ≠ [] →
      ∃ l, hybridSearch ents ppl prts query kb n = Except.ok l ∧
        l.length ≤ n ∧ List.Sorted scoreGE l) := by
  refine ⟨?_, ?_, ?_⟩
  · intro h
    simp [hybridSearch, h]
  · intro h1 h2
    simp [hybridSearch, List.isEmpty_iff, h1, h2]
  · intro h
    by_cases hall : allSemanticResults ents ppl prts = []
    · exact ⟨[], by simp [hybridSearch, hall], by simp, List.sorted_nil⟩
    · refine ⟨(List.insertionSort scoreGE
          ((allSemanticResults ents ppl prts).map
            (fun hc => ⟨hc.1, hc.2, hybridScore (wordSet query) kb hc.1⟩))).take n,
        ?_, ?_, ?_⟩
      · simp [hybridSearch, List.isEmpty_iff, hall, h]
      · exact List.length_take_le _ _
      · exact List.Pairwise.sublist (List.take_sublist _ _)
          (List.sorted_insertionSort scoreGE _)

def cwHit : SearchHit :=
  { document := "Entity: Ministry of Digital. Type: Ministry", relevance := 9 / 10 }

/-- Witness for the amended C10: with one semantic result, the token-free
query raises and a two-token query returns a sorted, capped result. -/
theorem hybrid_search_spec_witness :
    hybridSearch [cwHit] [] [] "" (3 / 10) 10 = Except.error "ZeroDivisionError" ∧
    (∃ l, hybridSearch [cwHit] [] [] "ministry digital" (3 / 10) 10 = Except.ok l ∧
      l.length ≤ 10 ∧ List.Sorted scoreGE l) := by
  constructor
  · exact (hybrid_search_spec [cwHit] [] [] "" (3 / 10) 10).2.1
      (by
        rw [show allSemanticResults [cwHit] [] [] = [(cwHit, "entities")] from rfl]
        exact List.cons_ne_nil _ _)
      rfl
  · exact (hybrid_search_spec [cwHit] [] [] "ministry digital" (3 / 10) 10).2.2
      (by
        rw [show wordSet "ministry digital" = ["ministry", "digital"] from rfl]
        exact List.cons_ne_nil _ _)

/-! ## C8: semantic index re-adds (GovernmentVectorSearch.index_entities /
index_people)

The index methods call ChromaDB collection.add, not upsert.  Chroma's add
validates that ids within one request are unique (raising
DuplicateIDError otherwise) and skips — with a logged warning, leaving the
stored record unchanged — any id already present in the collection.  A
collection is embedded as a list of (id, document) records in insertion
order. -/

/-- Insert one (id, document) record unless the id is already present; the
embedding of ChromaDB add's per-record behavior on an existing id (skip,
keep the stored record). -/
def chromaInsert (c : List (String × String)) (it : String × String) :
    List (String × String) :=
  if c.any (fun e => decide (e.1 = it.1)) then c else c ++ [it]

/-- ChromaDB collection.add on a batch: reject batches with duplicate ids,
otherwise insert record by record, skipping ids already stored. -/
def chromaAdd (c : List (String × String)) (batch : List (String × String)) :
    Except String (List (String × String)) :=
  if (batch.map Prod.fst).Nodup then Except.ok (batch.foldl chromaInsert c)
  else Except.error "DuplicateIDError"

/-- Python str.replace of the pipe by a comma and space, as used on the
policy list inside _create_entity_document. -/
def replaceBar (s : String) : String :=
  ⟨s.data.flatMap (fun c => if c = '|' then [',', ' '] else [c])⟩

/-- GovernmentVectorSearch._create_entity_document. -/
def entityDocument (r : EntityRow) : String :=
  String.intercalate ". "
    (["Entity: " ++ r.name, "Type: " ++ r.entity_type, "Mandate: " ++ r.mandate] ++
      (match r.policy_alignment with
       | some s => ["Policy Alignment: " ++ replaceBar s]
       | none => []) ++
      (match r.parent_org with
       | some p => ["Reports to: " ++ p]
       | none => []))

/-- GovernmentVectorSearch._create_person_document. -/
def personDocument (r : PersonRow) : String :=
  String.intercalate ". "
    ["Person: " ++ r.name, "Title: " ++ r.title, "Role: " ++ r.role_type,
      "Focus Area: " ++ r.focus_area, "Works at entity: " ++ r.entity_id]

/-- GovernmentVectorSearch.index_entities: one add call with the stable id
entity_<entity_id> and the synthesized document per row. -/
def indexEntities (c : List (String × String)) (rows : List EntityRow) :
    Except String (List (String × String)) :=
  chromaAdd c (rows.map (fun r => ("entity_" ++ r.entity_id, entityDocument r)))

/-- GovernmentVectorSearch.index_people: one add call with the stable id
person_<person_id> and the synthesized document per row. -/
def indexPeople (c : List (String × String)) (rows : List PersonRow) :
    Except String (List (String × String)) :=
  chromaAdd c (rows.map (fun r => ("person_" ++ r.person_id, personDocument r)))

theorem chromaInsert_any_mono (c : List (String × String)) (it : String × String)
    (k : String) (h : c.any (fun e => decide (e.1 = k)) = true) :
    (chromaInsert c it).any (fun e => decide (e.1 = k)) = true := by
  unfold chromaInsert
  by_cases hp : c.any (fun e => decide (e.1 = it.1)) = true
  · rw [if_pos hp]; exact h
  · rw [if_neg hp, List.any_append, h, Bool.true_or]

theorem chromaInsert_any_self (c : List (String × String)) (it : String × String) :
    (chromaInsert c it).any (fun e => decide (e.1 = it.1)) = true := by
  unfold chromaInsert
  by_cases hp : c.any (fun e => decide (e.1 = it.1)) = true
  · rw [if_pos hp]; exact hp
  · rw [if_neg hp, List.any_append, Bool.or_eq_true]
    exact Or.inr (by simp)

theorem foldl_chromaInsert_any_mono (c : List (String × String))
    (batch : List (String × String)) (k : String)
    (h : c.any (fun e => decide (e.1 = k)) = true) :
    (batch.foldl chromaInsert c).any (fun e => decide (e.1 = k)) = true := by
  induction batch generalizing c with
  | nil => exact h
  | cons x xs ih => exact ih (chromaInsert c x) (chromaInsert_any_mono c x k h)

theorem foldl_chromaInsert_present (c : List (String × String))
    (batch : List (String × String)) (it : String × String) (hit : it ∈ batch) :
    (batch.foldl chromaInsert c).any (fun e => decide (e.1 = it.1)) = true := by
  induction batch generalizing c with
  | nil => cases hit
  | cons x xs ih =>
      rcases List.mem_cons.mp hit with rfl | hit'
      · exact foldl_chromaInsert_any_mono (chromaInsert c it) xs it.1
          (chromaInsert_any_self c it)
      · exact ih (chromaInsert c x) hit'

theorem chromaInsert_of_present (c : List (String × String)) (it : String × String)
    (h : c.any (fun e => decide (e.1 = it.1)) = true) : chromaInsert c it = c := by
  unfold chromaInsert
  rw [if_pos h]

theorem foldl_chromaInsert_of_all_present (c : List (String × String))
    (batch : List (String × String))
    (h : ∀ it ∈ batch, c.any (fun e => decide (e.1 = it.1)) = true) :
    batch.foldl chromaInsert c = c := by
  induction batch with
  | nil => rfl
  | cons x xs ih =>
      rw [List.foldl_cons, chromaInsert_of_present c x (h x (List.mem_cons_self _ _))]
      exact ih (fun it hit => h it (List.mem_cons_of_mem x hit))

/-- Re-submitting a batch that a ChromaDB add has already stored leaves the
collection unchanged: every id is now present, so every record is skipped. -/
theorem chromaAdd_readd (c c1 : List (String × String))
    (batch : List (String × String)) (h : chromaAdd c batch = Except.ok c1) :
    chromaAdd c1 batch = Except.ok c1 := by
  unfold chromaAdd at h ⊢
  by_cases hnd : (batch.map Prod.fst).Nodup
  · rw [if_pos hnd] at h ⊢
    have hc1 : c1 = batch.foldl chromaInsert c := (Except.ok.inj h).symm
    rw [hc1, foldl_chromaInsert_of_all_present _ _
      (fun it hit => foldl_chromaInsert_present c batch it hit)]
  · rw [if_neg hnd] at h
    cases h

/-- C8 as amended: re-indexing the same entity or people batch under its
stable document ids adds nothing — each existing id is skipped rather than
overwritten — so the collection, and in particular its document count, is
exactly what one indexing pass produced. -/
theorem semantic_reindex_no_duplicates (c c1 : List (String × String))
    (erows : List EntityRow) (c2 c3 : List (String × String))
    (prows : List PersonRow)
    (h1 : indexEntities c erows = Except.ok c1)
    (h2 : indexPeople c2 prows = Except.ok c3) :
    indexEntities c1 erows = Except.ok c1 ∧ indexPeople c3 prows = Except.ok c3 :=
  ⟨chromaAdd_readd c c1 _ h1, chromaAdd_readd c2 c3 _ h2⟩

/-- Witness for the amended C8: one entity row and one person row, indexed
into an empty collection and then re-indexed, leave the one-document
collections unchanged. -/
theorem semantic_reindex_no_duplicates_witness :
    indexEntities [("entity_MIN001", entityDocument cwEntityParent)]
        [cwEntityParent] =
      Except.ok [("entity_MIN001", entityDocument cwEntityParent)] ∧
    indexPeople [("person_P1", personDocument cwPersonHigh)] [cwPersonHigh] =
      Except.ok [("person_P1", personDocument cwPersonHigh)] :=
  semantic_reindex_no_duplicates []
    [("entity_MIN001", entityDocument cwEntityParent)] [cwEntityParent]
    [] [("person_P1", personDocument cwPersonHigh)] [cwPersonHigh] rfl rfl

def cwEntityRenamed : EntityRow :=
  { cwEntityParent with name := "Ministry of Digital Renamed" }

/-- Counterexample to C8 as stated: re-indexing an updated record under the
existing stable id entity_MIN001 does not overwrite the stored document —
ChromaDB add skips the existing id, so the old document is retained even
though the newly synthesized document differs. -/
theorem index_add_does_not_overwrite_counterexample :
    indexEntities [] [cwEntityParent] =
      Except.ok [("entity_MIN001", entityDocument cwEntityParent)] ∧
    indexEntities [("entity_MIN001", entityDocument cwEntityParent)]
        [cwEntityRenamed] =
      Except.ok [("entity_MIN001", entityDocument cwEntityParent)] ∧
    entityDocument cwEntityRenamed ≠ entityDocument cwEntityParent := by
  refine ⟨rfl, rfl, ?_⟩
  decide

end MGDEIS
